import Mathlib

/-!
Verification of the silicon-alloy core triad (bottle record store, runtime
registry, recipe execution engine) against its natural-language specification.

The Rust sources are shallowly embedded:
* `FilePath` models `std::path::PathBuf` as an absolute-flag plus a list of
  components (`join` replaces on absolute right-hand sides, as in Rust).
* The bottle store's on-disk state is an association list from bottle id to
  the directory's content (`none` marks a directory whose metadata file is
  missing); all filesystem calls become `Except String` results.
* External processes and copy I/O are oracles (`World`): the n-th launch /
  copy operation of a run yields a prescribed outcome, so the engine's
  control flow is a pure fold over the steps that also emits the trace of
  external side effects (`Event`).
-/

namespace SiliconAlloy

/-- Model of `std::path::PathBuf`: an absolute flag and path components. -/
structure FilePath where
  absolute : Bool
  comps : List String
deriving DecidableEq, Repr

/-- Source `Path::join`: an absolute right-hand side replaces the left-hand side. -/
def FilePath.join (p q : FilePath) : FilePath :=
  if q.absolute then q else ⟨p.absolute, p.comps ++ q.comps⟩

/-- Source `Path::join` with a single literal component. -/
def FilePath.child (p : FilePath) (c : String) : FilePath :=
  ⟨p.absolute, p.comps ++ [c]⟩

/-- Source `Path::parent`: `none` for an empty or root path. -/
def FilePath.parent (p : FilePath) : Option FilePath :=
  if p.comps = [] then none else some ⟨p.absolute, p.comps.dropLast⟩

/-- Source `WineRuntime` from `shared/src/lib.rs`. -/
structure WineRuntime where
  label : String
  wine64_path : FilePath
  version : String
  channel : Option String
deriving DecidableEq, Repr

/-- Source `RuntimeDescriptor` from `shared/src/lib.rs`. -/
structure RuntimeDescriptor where
  channel : String
  label : String
  version : String
  wine64_path : FilePath
  notes : Option String
deriving DecidableEq, Repr

/-- Source `RuntimeDescriptor::into_wine_runtime`. -/
def RuntimeDescriptor.into_wine_runtime (d : RuntimeDescriptor) : WineRuntime :=
  { label := d.label
    wine64_path := d.wine64_path
    version := d.version
    channel := some d.channel }

/-- Source `BottleRecord` from `shared/src/lib.rs`; `Uuid` is modelled as `Nat`. -/
structure BottleRecord where
  id : Nat
  name : String
  created_at : Nat
  wine_runtime : WineRuntime
  environment : List (String × String)
deriving DecidableEq, Repr

/-- The bottle root's on-disk state: each entry is a bottle directory keyed
by id, whose content is the parsed `bottle.json` when present. -/
abbrev FS := List (Nat × Option BottleRecord)

/-- Directory lookup under the bottle root. -/
def FS.dir (fs : FS) (id : Nat) : Option (Option BottleRecord) :=
  fs.lookup id

/-- Replace the metadata stored in bottle directory `id`. -/
def FS.setMeta (fs : FS) (id : Nat) (r : BottleRecord) : FS :=
  fs.map (fun e => if e.1 = id then (e.1, some r) else e)

/-- Delete bottle directory `id` (`remove_dir_all`). -/
def FS.erase (fs : FS) (id : Nat) : FS :=
  fs.filter (fun e => e.1 ≠ id)

/-- The error text of `BottleStore::remove` / `update_record` for a missing
directory (the NotFound failure). -/
def notFoundMsg (id : Nat) : String :=
  "bottle " ++ toString id ++ " not found"

/-- The error context of `BottleStore::record` when the metadata file cannot
be read (the NotFound failure of the underlying filesystem read). -/
def metaNotFoundMsg (id : Nat) : String :=
  "failed to read bottle metadata for " ++ toString id

namespace BottleStore

/-- Source `BottleStore::record`: read and parse `<root>/<id>/bottle.json`; the read
fails when the directory or the metadata file is missing. -/
def record (fs : FS) (id : Nat) : Except String BottleRecord :=
  match fs.dir id with
  | some (some r) => .ok r
  | _ => .error (metaNotFoundMsg id)

/-- Source `BottleStore::update_record`: NotFound when the directory does not
exist, otherwise overwrite the metadata file in place. -/
def update_record (fs : FS) (id : Nat) (r : BottleRecord) : Except String FS :=
  match fs.dir id with
  | some _ => .ok (fs.setMeta id r)
  | none => .error (notFoundMsg id)

/-- Source `BottleStore::remove`: NotFound when the directory does not exist,
otherwise delete the whole directory tree. -/
def remove (fs : FS) (id : Nat) : Except String FS :=
  match fs.dir id with
  | some _ => .ok (fs.erase id)
  | none => .error (notFoundMsg id)

/-- Source `BottleStore::create`: make the bottle directory and prefix, store the
record with the requested name verbatim, and return it. The fresh id and
the timestamp are parameters of the embedding. -/
def create (fs : FS) (newId : Nat) (now : Nat) (name : String)
    (runtime : WineRuntime) : BottleRecord × FS :=
  let rec0 : BottleRecord :=
    { id := newId, name := name, created_at := now
      wine_runtime := runtime, environment := [] }
  (rec0, (newId, some rec0) :: fs)

/-- Source `BottleStore::bottle_prefix`: pure path computation `<root>/<id>/prefix`. -/
def bottle_prefix_path (root : FilePath) (id : Nat) : FilePath :=
  (root.child (toString id)).child "prefix"

end BottleStore

/-- The `Env` step's inner loop (`service.rs`, Env arm): for one pair,
`retain` every entry whose key differs, then `push` the new pair. -/
def envSet (env : List (String × String)) (k v : String) :
    List (String × String) :=
  env.filter (fun existing => existing.1 ≠ k) ++ [(k, v)]

/-- The `Env` step (`service.rs`, Env arm): fold `envSet` over the pairs in
order. -/
def applyEnvPairs (env : List (String × String))
    (pairs : List (String × String)) : List (String × String) :=
  pairs.foldl (fun acc p => envSet acc p.1 p.2) env

/-- The `WineCfg` arm's environment write (`service.rs:200`): a plain
`push` of `WINE_DEFAULT_VERSION`, with no `retain` beforehand. -/
def wineCfgEnvWrite (env : List (String × String)) (version : Option String) :
    List (String × String) :=
  match version with
  | some v => env ++ [("WINE_DEFAULT_VERSION", v)]
  | none => env

/-! ### `BottleName::sanitize` (alloy-core/src/bottle.rs) -/

/-- One character of the sanitize loop: ASCII letters are lowercased, digits
kept, `-`/`_` kept, a space becomes `-`, anything else is dropped. -/
def sanitizeChar (ch : Char) : Option Char :=
  if ('a' ≤ ch ∧ ch ≤ 'z') ∨ ('A' ≤ ch ∧ ch ≤ 'Z') ∨ ('0' ≤ ch ∧ ch ≤ '9') then
    some ch.toLower
  else if ch = '-' ∨ ch = '_' then some ch
  else if ch = ' ' then some '-'
  else none

/-- Rust `str::trim` over the character list: strip leading and trailing
whitespace. -/
def trimAscii (cs : List Char) : List Char :=
  ((cs.dropWhile Char.isWhitespace).reverse.dropWhile Char.isWhitespace).reverse

/-- Rust `str::trim_matches(['-', '_'])`: strip leading and trailing dashes
and underscores. -/
def trimDashes (cs : List Char) : List Char :=
  ((cs.dropWhile (fun c => c = '-' ∨ c = '_')).reverse.dropWhile
    (fun c => c = '-' ∨ c = '_')).reverse

namespace BottleName

/-- Source `BottleName::sanitize`. -/
def sanitize (input : String) : Option String :=
  let trimmed := trimAscii input.toList
  if trimmed.isEmpty then none
  else
    let clean := trimDashes (trimmed.filterMap sanitizeChar)
    if clean.isEmpty then none else some (String.mk clean)

/-- Source `BottleName::from_str`: sanitize or fail with the invalid-name error. -/
def fromStr (s : String) : Except String String :=
  match sanitize s with
  | some slug => .ok slug
  | none =>
      .error "please pick a bottle name that uses letters, numbers, dashes, or underscores"

end BottleName

/-- Source `RuntimeMetadata` from alloy-core/src/runtime.rs. -/
structure RuntimeMetadata where
  version : String
  arch : String
  built_at : Option String
  sdk_path : Option String
  sdk_version : Option String
  min_macos : Option String
deriving DecidableEq, Repr

/-- Source `BottleMetadata` from alloy-core/src/bottle.rs. -/
structure BottleMetadata where
  id : Nat
  name : String
  created_at : String
  runtime : RuntimeMetadata
  notes : Option String
deriving DecidableEq, Repr

/-- Source `BottleManager::create_bottle`: the metadata written to
`silicon-alloy.json` carries the already-sanitized `BottleName`. -/
def create_bottle_metadata (newId : Nat) (createdAt : String) (name : String)
    (runtime : RuntimeMetadata) : BottleMetadata :=
  { id := newId, name := name, created_at := createdAt
    runtime := runtime, notes := none }

/-- The alloy-daemon `Create` command: `BottleName::from_str` on the
requested name, then `create_bottle` on the parsed slug. -/
def alloy_daemon_create (newId : Nat) (createdAt : String) (requested : String)
    (runtime : RuntimeMetadata) : Except String BottleMetadata :=
  match BottleName.fromStr requested with
  | .error e => .error e
  | .ok slug => .ok (create_bottle_metadata newId createdAt slug runtime)

/-! ### `discover_runtimes` (shared/src/lib.rs) -/

/-- One entry of `read_dir(root)`. -/
structure DirEntry where
  name : String
  isDir : Bool
deriving DecidableEq, Repr

/-- Rust `str::split(sep)` over the character list: the separator-delimited
segments, empty segments included (an empty input yields one empty
segment, as in Rust). -/
def splitOnCharAux (sep : Char) : List Char → List (List Char)
  | [] => [[]]
  | c :: rest =>
    if c = sep then [] :: splitOnCharAux sep rest
    else
      match splitOnCharAux sep rest with
      | s :: ss => (c :: s) :: ss
      | [] => [[c]]

/-- Rust `str::split(sep)` producing strings. -/
def splitOnChar (sep : Char) (s : String) : List String :=
  (splitOnCharAux sep s.toList).map String.mk

/-- The `match arch` channel derivation inside `discover_runtimes`. -/
def archChannel (arch : String) : String :=
  if arch = "x86_64" then "rossetta"
  else if arch = "arm64" then "native-arm64"
  else "custom-" ++ arch

/-- The body of the `discover_runtimes` loop for one directory entry:
`none` when the entry is skipped. `hasWine64 name` models the existence
check on `<root>/<name>/bin/wine64`. -/
def discoverEntry (root : FilePath) (hasWine64 : String → Bool)
    (e : DirEntry) : Option RuntimeDescriptor :=
  if e.isDir = false then none
  else
    match splitOnChar '-' e.name with
    | tag :: arch :: v₀ :: vrest =>
      if tag ≠ "wine" then none
      else
        let version := String.intercalate "-" (v₀ :: vrest)
        if hasWine64 e.name = false then none
        else
          some { channel := archChannel arch
                 label := "wine " ++ arch ++ " " ++ version
                 version := version
                 wine64_path := ((root.child e.name).child "bin").child "wine64"
                 notes := none }
    | _ => none

/-- The comparison of the final `sort_by` (ordering by label). -/
def labelLe (a b : RuntimeDescriptor) : Bool :=
  decide (a.label ≤ b.label)

/-- Source `discover_runtimes`: empty when the root is missing, otherwise the
skipping scan over the entries followed by the stable sort by label. -/
def discover_runtimes (root : FilePath) (rootExists : Bool)
    (entries : List DirEntry) (hasWine64 : String → Bool) :
    List RuntimeDescriptor :=
  if rootExists = false then []
  else (entries.filterMap (discoverEntry root hasWine64)).mergeSort labelLe

/-! ### `select_runtime` and `default_wine_path` (daemon/src/service.rs) -/

/-- The decoded `bottle.create` parameters. -/
structure BottleCreateParams where
  name : String
  wine_version : String
  wine_label : Option String
  wine_path : Option FilePath
  channel : Option String
deriving DecidableEq, Repr

/-- Source `default_wine_path`: `<runtime_dir>/wine-x86_64-<version>/bin/wine64`. -/
def default_wine_path (runtime_dir : FilePath) (version : String) : FilePath :=
  ((runtime_dir.child ("wine-x86_64-" ++ version)).child "bin").child "wine64"

/-- Source `DaemonService::descriptor_to_runtime`. -/
def descriptor_to_runtime (d : RuntimeDescriptor)
    (overrideLabel : Option String) : WineRuntime :=
  match overrideLabel with
  | some l => { d.into_wine_runtime with label := l }
  | none => d.into_wine_runtime

/-- Source `DaemonService::select_runtime`; the cached runtime list and runtime
root directory are the relevant service state. -/
def select_runtime (runtimes : List RuntimeDescriptor)
    (runtime_dir : FilePath) (input : BottleCreateParams) :
    Except String WineRuntime :=
  match input.wine_path with
  | some path =>
    .ok { label := input.wine_label.getD ("custom wine " ++ input.wine_version)
          wine64_path := path
          version := input.wine_version
          channel := match input.channel with
                     | some c => some c
                     | none => some "custom" }
  | none =>
    let channel := input.channel.getD "rossetta"
    match runtimes.find?
        (fun rt => rt.channel == channel && rt.version == input.wine_version) with
    | some d => .ok (descriptor_to_runtime d input.wine_label)
    | none =>
      match runtimes.find? (fun rt => rt.channel == channel) with
      | some d => .ok (descriptor_to_runtime d input.wine_label)
      | none =>
        .ok { label := input.wine_label.getD ("wine " ++ input.wine_version)
              wine64_path := default_wine_path runtime_dir input.wine_version
              version := input.wine_version
              channel := some channel }

/-! ### Recipe manifests and `RecipeStepRaw::normalize` (shared/src/recipes.rs) -/

/-- The canonical `RecipeStep` variants. -/
inductive RecipeStep where
  | run (path : FilePath) (args : List String)
  | waitForExit
  | wineCfg (version : Option String)
  | env (vars : List (String × String))
  | copy (src dst : FilePath)
deriving DecidableEq, Repr

/-- Source `RecipeManifest`. -/
structure RecipeManifest where
  id : String
  name : String
  description : Option String
  steps : List RecipeStep

/-- Source `Recipe`: a manifest plus the directory it was loaded from. -/
structure Recipe where
  manifest : RecipeManifest
  base_dir : FilePath

/-- Source `Recipe::resource`: absolute paths pass through, relative paths join
under `<base_dir>/resources`. -/
def Recipe.resource (r : Recipe) (rel : FilePath) : FilePath :=
  if rel.absolute then rel else (r.base_dir.child "resources").join rel

/-- Source `BTreeMap::insert` on the sorted association list that models the map
the raw `Env` step is deserialized into: keys stay strictly sorted, an
existing binding for the key is overwritten. -/
def btreeInsert (k v : String) : List (String × String) → List (String × String)
  | [] => [(k, v)]
  | (k', v') :: rest =>
    if k < k' then (k, v) :: (k', v') :: rest
    else if k = k' then (k, v) :: rest
    else (k', v') :: btreeInsert k v rest

/-- Normalization of an on-disk `Env` step: the YAML mapping's pairs (in
document order, duplicates included) are collected into a `BTreeMap`
(later duplicate wins) and then emitted as `env.into_iter().collect()`,
i.e. in key order. -/
def normalizeEnvStep (pairs : List (String × String)) : List (String × String) :=
  pairs.foldl (fun m p => btreeInsert p.1 p.2 m) []

/-- Source `RecipeStepRaw::Wait` normalization: only `wait_for_exit: true` is
accepted; `false` is a load error. -/
def normalizeWait (wait_for_exit : Bool) : Except String RecipeStep :=
  if wait_for_exit then .ok .waitForExit
  else .error "wait_for_exit must be true when specified"

/-! ### The recipe engine (`DaemonService::apply_recipe`, service.rs) -/

/-- Outcome of one `Command::status()` call: spawn failure, or an exit
status (`none` models a signal-terminated process, `some c` exit code `c`;
`success()` is `some 0`). -/
abbrev LaunchOutcome := Except String (Option Int)

/-- The oracles for the engine's external effects: the n-th process launch
and the n-th copy operation (`create_dir_all` + `fs::copy`) of a run, and
file existence for `Copy` sources. -/
structure World where
  launches : Nat → LaunchOutcome
  copyOps : Nat → Except String Unit
  fsExists : FilePath → Bool

/-- The externally visible side effects of a run, in order, plus the final
`update_record` write. -/
inductive Event where
  | launched (command : FilePath) (args : List String)
      (env : List (String × String))
  | copied (src dst : FilePath)
  | updated (id : Nat) (r : BottleRecord)
deriving DecidableEq, Repr

/-- Whether an event is the store's `update_record` write. -/
def Event.isUpdate : Event → Bool
  | .updated _ _ => true
  | _ => false

/-- In-memory state threaded through the step loop: the mutable copy of the
bottle record, the launch/copy oracle positions, and the effect trace. -/
structure EngineSt where
  record : BottleRecord
  launchN : Nat
  copyN : Nat
  events : List Event
deriving Repr

/-- One iteration of the `for step in recipe.manifest.steps` loop. On a
failure the returned state carries the in-memory mutations and external
effects that had already happened. -/
def runStep (w : World) (recipe : Recipe) (pfx : FilePath) (st : EngineSt) :
    RecipeStep → Except String Unit × EngineSt
  | .run path args =>
    let resolved := recipe.resource path
    match w.launches st.launchN with
    | .error e => (.error e, { st with launchN := st.launchN + 1 })
    | .ok _ =>
      (.ok (), { st with
        launchN := st.launchN + 1
        events := st.events ++ [.launched resolved args st.record.environment] })
  | .waitForExit => (.ok (), st)
  | .wineCfg version =>
    let rec' := { st.record with
      environment := wineCfgEnvWrite st.record.environment version }
    match rec'.wine_runtime.wine64_path.parent with
    | none => (.error "wine runtime missing winecfg companion",
               { st with record := rec' })
    | some parent =>
      match w.launches st.launchN with
      | .error e => (.error e, { st with record := rec', launchN := st.launchN + 1 })
      | .ok _ =>
        (.ok (), { record := rec'
                   launchN := st.launchN + 1
                   copyN := st.copyN
                   events := st.events ++
                     [.launched (parent.child "winecfg") [] rec'.environment] })
  | .env vars =>
    (.ok (), { st with record := { st.record with
      environment := applyEnvPairs st.record.environment vars } })
  | .copy src dst =>
    let source := recipe.resource src
    if w.fsExists source = false then
      (.error "recipe resource is missing", st)
    else
      match w.copyOps st.copyN with
      | .error e => (.error e, { st with copyN := st.copyN + 1 })
      | .ok _ =>
        (.ok (), { st with
          copyN := st.copyN + 1
          events := st.events ++ [.copied source (pfx.join dst)] })

/-- The step loop: stop at the first failing step. -/
def runSteps (w : World) (recipe : Recipe) (pfx : FilePath) :
    List RecipeStep → EngineSt → Except String Unit × EngineSt
  | [], st => (.ok (), st)
  | step :: rest, st =>
    match runStep w recipe pfx st step with
    | (.error e, st') => (.error e, st')
    | (.ok _, st') => runSteps w recipe pfx rest st'

/-- Result of `apply_recipe`: the RPC result, the bottle root's state, and
the emitted effect trace. -/
structure ApplyOut where
  result : Except String String
  fs : FS
  events : List Event

/-- Source `DaemonService::apply_recipe`: load the record once, run the steps in
order, and only on full success write the accumulated record back through
`update_record`. -/
def apply_recipe (w : World) (root : FilePath) (fs : FS) (bottleId : Nat)
    (recipe : Recipe) : ApplyOut :=
  match BottleStore.record fs bottleId with
  | .error e => ⟨.error e, fs, []⟩
  | .ok rec0 =>
    let pfx := BottleStore.bottle_prefix_path root bottleId
    match runSteps w recipe pfx recipe.manifest.steps ⟨rec0, 0, 0, []⟩ with
    | (.error e, st) => ⟨.error e, fs, st.events⟩
    | (.ok _, st) =>
      match BottleStore.update_record fs bottleId st.record with
      | .error e => ⟨.error e, fs, st.events⟩
      | .ok fs' =>
        ⟨.ok recipe.manifest.id, fs', st.events ++ [.updated bottleId st.record]⟩

/-- The success payload of `bottle.run`. -/
structure BottleRunOut where
  exit_status : Option Int
  success : Bool
deriving DecidableEq, Repr

/-- Source `DaemonService::bottle_run`: look the record up, launch once, and wrap
any exit status — zero or not — as an `ok` payload; only a lookup or spawn
failure is an error. -/
def bottle_run (w : World) (fs : FS) (id : Nat) : Except String BottleRunOut :=
  match BottleStore.record fs id with
  | .error e => .error e
  | .ok _r =>
    match w.launches 0 with
    | .error e => .error e
    | .ok code => .ok ⟨code, code == some 0⟩

/-! ### Concrete fixtures used by witnesses and counterexamples -/

/-- A discovered rossetta 7.0 runtime, as `discover_runtimes` builds it. -/
def sampleRuntime : WineRuntime :=
  { label := "wine x86_64 7.0"
    wine64_path := ⟨true, ["runtime", "wine-x86_64-7.0", "bin", "wine64"]⟩
    version := "7.0"
    channel := some "rossetta" }

/-- A bottle record with an empty environment. -/
def sampleRecord : BottleRecord :=
  { id := 1, name := "game", created_at := 0
    wine_runtime := sampleRuntime, environment := [] }

/-- A loaded recipe with no steps of its own. -/
def sampleRecipe : Recipe :=
  { manifest := { id := "sample", name := "Sample", description := none, steps := [] }
    base_dir := ⟨true, ["recipes", "sample"]⟩ }

/-- A bottle prefix directory path. -/
def samplePfx : FilePath := ⟨true, ["bottles", "1", "prefix"]⟩

/-- A world in which every launch exits 0 and all copy I/O succeeds. -/
def wAllOk : World :=
  { launches := fun _ => .ok (some 0)
    copyOps := fun _ => .ok ()
    fsExists := fun _ => true }

/-- Runtime metadata fixture for the alloy-core path. -/
def sampleRuntimeMeta : RuntimeMetadata :=
  { version := "7.0", arch := "x86_64", built_at := none
    sdk_path := none, sdk_version := none, min_macos := none }

/-! ### Helper lemmas -/

theorem FS.dir_erase (fs : FS) (id : Nat) : (FS.erase fs id).dir id = none := by
  simp [FS.erase, FS.dir]
  exact fun a b _ h he => h he.symm

theorem envSet_filter_ne (env : List (String × String)) (k v : String) :
    (envSet env k v).filter (fun q => decide (q.1 ≠ k))
      = env.filter (fun q => decide (q.1 ≠ k)) := by
  simp [envSet, List.filter_append, List.filter_filter]

theorem envSet_filter_eq (env : List (String × String)) (k v : String) :
    (envSet env k v).filter (fun q => decide (q.1 = k)) = [(k, v)] := by
  simp [envSet, List.filter_append, List.filter_filter]

theorem envSet_countP (env : List (String × String)) (k v : String) :
    List.countP (fun q => q.1 == k) (envSet env k v) = 1 := by
  rw [envSet, List.countP_append]
  have h0 : List.countP (fun q => q.1 == k)
      (env.filter (fun existing => decide (existing.1 ≠ k))) = 0 := by
    rw [List.countP_eq_zero]
    intro a ha
    have := List.of_mem_filter ha
    simpa using of_decide_eq_true this
  simp [h0, List.countP_cons]

theorem find?_and_none {l : List RuntimeDescriptor}
    {p q : RuntimeDescriptor → Bool} (h : l.find? p = none) :
    l.find? (fun rt => p rt && q rt) = none := by
  rw [List.find?_eq_none] at h ⊢
  intro x hx
  simp [h x hx]

/-!
### C3 — the Env step: in-order processing, true overwrite, never fails
-/

/-- C3: an Env step processes its pairs in order, and for each pair removes
any existing entry for that key then appends the new pair; applying Env
steps twice with the same key and different values leaves exactly one entry
for that key holding the later value without reordering other keys, and an
Env step never fails. -/
theorem env_step_true_overwrite :
    ∀ (env : List (String × String)) (k v₁ v₂ : String)
      (pairs : List (String × String)) (p : String × String)
      (w : World) (recipe : Recipe) (pfx : FilePath) (st : EngineSt)
      (vars : List (String × String)),
      applyEnvPairs env (p :: pairs) = applyEnvPairs (envSet env p.1 p.2) pairs
      ∧ (applyEnvPairs (applyEnvPairs env [(k, v₁)]) [(k, v₂)]).filter
          (fun q => decide (q.1 = k)) = [(k, v₂)]
      ∧ (applyEnvPairs (applyEnvPairs env [(k, v₁)]) [(k, v₂)]).filter
          (fun q => decide (q.1 ≠ k)) = env.filter (fun q => decide (q.1 ≠ k))
      ∧ (runStep w recipe pfx st (.env vars)).1 = .ok () := by
  intro env k v₁ v₂ pairs p w recipe pfx st vars
  refine ⟨rfl, ?_, ?_, rfl⟩
  · show (envSet (envSet env k v₁) k v₂).filter (fun q => decide (q.1 = k)) = [(k, v₂)]
    exact envSet_filter_eq _ k v₂
  · show (envSet (envSet env k v₁) k v₂).filter (fun q => decide (q.1 ≠ k))
      = env.filter (fun q => decide (q.1 ≠ k))
    rw [envSet_filter_ne, envSet_filter_ne]

/-!
### C8 — remove and record NotFound behavior
-/

/-- C8: `remove` on an id with no record directory fails with the NotFound
error and never silently succeeds; after a successful `remove`, `record` on
the same id fails with its NotFound error (the directory, including the
metadata, is gone). -/
theorem remove_record_not_found :
    ∀ (fs : FS) (id : Nat),
      (fs.dir id = none → BottleStore.remove fs id = .error (notFoundMsg id))
      ∧ (∀ fs', BottleStore.remove fs id = .ok fs' →
          BottleStore.record fs' id = .error (metaNotFoundMsg id)) := by
  intro fs id
  constructor
  · intro h
    simp [BottleStore.remove, h]
  · intro fs' h
    rw [BottleStore.remove] at h
    cases hd : fs.dir id with
    | none => rw [hd] at h; cases h
    | some m =>
      rw [hd] at h
      cases h
      rw [BottleStore.record, FS.dir_erase]

/-- Witness for C8: removing id 2 from a store that only holds id 1 fails
with NotFound, and after removing id 1 its record lookup fails. -/
theorem remove_record_not_found_witness :
    BottleStore.remove [(1, some sampleRecord)] 2 = .error (notFoundMsg 2)
    ∧ BottleStore.record (FS.erase [(1, some sampleRecord)] 1) 1
        = .error (metaNotFoundMsg 1) :=
  ⟨(remove_record_not_found [(1, some sampleRecord)] 2).1 rfl,
   (remove_record_not_found [(1, some sampleRecord)] 1).2
     (FS.erase [(1, some sampleRecord)] 1) rfl⟩

/-!
### C5 — runtime selection never fails; preference order
-/

/-- C5: when no explicit wine path is given, `select_runtime` resolves the
channel (explicit, else "rossetta") and prefers an exact channel+version
match, then the first channel match, then a synthesized fallback under the
runtime root; in every case it returns a runtime, never an error. -/
theorem select_runtime_graceful :
    ∀ (runtimes : List RuntimeDescriptor) (dir : FilePath)
      (input : BottleCreateParams),
      (∃ rt, select_runtime runtimes dir input = .ok rt)
      ∧ (input.wine_path = none →
        (∀ d, runtimes.find? (fun rt =>
              rt.channel == input.channel.getD "rossetta"
                && rt.version == input.wine_version) = some d →
            select_runtime runtimes dir input
              = .ok (descriptor_to_runtime d input.wine_label))
        ∧ (runtimes.find? (fun rt =>
              rt.channel == input.channel.getD "rossetta"
                && rt.version == input.wine_version) = none →
           ∀ d, runtimes.find? (fun rt =>
              rt.channel == input.channel.getD "rossetta") = some d →
            select_runtime runtimes dir input
              = .ok (descriptor_to_runtime d input.wine_label))
        ∧ (runtimes.find? (fun rt =>
              rt.channel == input.channel.getD "rossetta") = none →
            select_runtime runtimes dir input = .ok
              { label := input.wine_label.getD ("wine " ++ input.wine_version)
                wine64_path := default_wine_path dir input.wine_version
                version := input.wine_version
                channel := some (input.channel.getD "rossetta") })) := by
  intro runtimes dir input
  constructor
  · rw [select_runtime]
    split
    · exact ⟨_, rfl⟩
    · dsimp only
      split
      · exact ⟨_, rfl⟩
      · split
        · exact ⟨_, rfl⟩
        · exact ⟨_, rfl⟩
  · intro hp
    refine ⟨?_, ?_, ?_⟩
    · intro d hd
      simp [select_runtime, hp, hd]
    · intro h1 d hd
      simp [select_runtime, hp, h1, hd]
    · intro h2
      have h1 := find?_and_none
        (q := fun rt => rt.version == input.wine_version) h2
      simp [select_runtime, hp, h1, h2]

/-- Witness for C5: requesting rossetta 9.0 when only rossetta 7.0 is
discovered falls back to the channel match instead of failing. -/
theorem select_runtime_graceful_witness :
    select_runtime
        [⟨"rossetta", "wine x86_64 7.0", "7.0",
          ⟨true, ["runtime", "wine-x86_64-7.0", "bin", "wine64"]⟩, none⟩]
        ⟨true, ["runtime"]⟩
        ⟨"My Game", "9.0", none, none, none⟩
      = .ok (descriptor_to_runtime
          ⟨"rossetta", "wine x86_64 7.0", "7.0",
            ⟨true, ["runtime", "wine-x86_64-7.0", "bin", "wine64"]⟩, none⟩ none) :=
  (((select_runtime_graceful
      [⟨"rossetta", "wine x86_64 7.0", "7.0",
        ⟨true, ["runtime", "wine-x86_64-7.0", "bin", "wine64"]⟩, none⟩]
      ⟨true, ["runtime"]⟩
      ⟨"My Game", "9.0", none, none, none⟩).2 rfl).2.1 (by rfl) _ (by rfl))

/-!
### C10 — the synthesized fallback always uses the x86_64 directory name
-/

/-- C10: whenever selection takes the synthesized-fallback branch, the
runtime's executable is `<runtimeRoot>/wine-x86_64-<version>/bin/wine64` —
the x86_64 naming regardless of the requested channel — while the returned
channel field carries the requested channel. -/
theorem select_runtime_fallback_x86_64 :
    ∀ (runtimes : List RuntimeDescriptor) (dir : FilePath)
      (input : BottleCreateParams),
      input.wine_path = none →
      runtimes.find? (fun rt =>
          rt.channel == input.channel.getD "rossetta") = none →
      select_runtime runtimes dir input = .ok
        { label := input.wine_label.getD ("wine " ++ input.wine_version)
          wine64_path := ⟨dir.absolute,
            dir.comps ++ ["wine-x86_64-" ++ input.wine_version, "bin", "wine64"]⟩
          version := input.wine_version
          channel := some (input.channel.getD "rossetta") } := by
  intro runtimes dir input hp h2
  have h1 := find?_and_none
    (q := fun rt => rt.version == input.wine_version) h2
  simp [select_runtime, hp, h1, h2, default_wine_path, FilePath.child]

/-- Witness for C10: an empty registry and requested channel
"native-arm64" still yields the `wine-x86_64-9.0` fallback path, with the
channel field keeping "native-arm64". -/
theorem select_runtime_fallback_x86_64_witness :
    select_runtime [] ⟨true, ["runtime"]⟩
        ⟨"b", "9.0", none, none, some "native-arm64"⟩
      = .ok { label := "wine 9.0"
              wine64_path := ⟨true, ["runtime", "wine-x86_64-9.0", "bin", "wine64"]⟩
              version := "9.0"
              channel := some "native-arm64" } :=
  select_runtime_fallback_x86_64 [] ⟨true, ["runtime"]⟩
    ⟨"b", "9.0", none, none, some "native-arm64"⟩ rfl rfl

/-!
### C7 — stored bottle name: verbatim in the store, slug in the alloy path
-/

/-- C7 counterexample: `BottleStore::create` called with display name
"My Game" stores and returns the name verbatim, which differs from the slug
form "my-game" that `BottleName::sanitize` produces — so creation through
the daemon's store does not store the sanitized slug. -/
theorem create_name_not_slug :
    (BottleStore.create [] 7 0 "My Game" sampleRuntime).1.name = "My Game"
    ∧ BottleName.sanitize "My Game" = some "my-game"
    ∧ ("My Game" : String) ≠ "my-game" := by
  refine ⟨rfl, ?_, by decide⟩
  rfl

/-- C7 amended: `BottleStore.create` stores the requested name verbatim and
returns exactly the stored record; slug sanitization happens only on the
alloy-core path, where the daemon's create command stores the
`BottleName::sanitize` slug of the requested name. -/
theorem create_name_verbatim_alloy_slug :
    ∀ (fs : FS) (newId now : Nat) (name : String) (rt : WineRuntime),
      (BottleStore.create fs newId now name rt).1.name = name
      ∧ FS.dir (BottleStore.create fs newId now name rt).2 newId
          = some (some (BottleStore.create fs newId now name rt).1)
      ∧ (∀ (s slug t : String) (rmeta : RuntimeMetadata) (nid : Nat),
          BottleName.sanitize s = some slug →
          alloy_daemon_create nid t s rmeta
            = .ok (create_bottle_metadata nid t slug rmeta)) := by
  intro fs newId now name rt
  refine ⟨rfl, ?_, ?_⟩
  · simp [BottleStore.create, FS.dir, List.lookup]
  · intro s slug t rmeta nid h
    simp [alloy_daemon_create, BottleName.fromStr, h]

/-- Witness for the amended C7: creating "My Game" through the store keeps
the name verbatim, while the alloy-daemon create stores the slug. -/
theorem create_name_verbatim_alloy_slug_witness :
    (BottleStore.create [] 7 0 "My Game" sampleRuntime).1.name = "My Game"
    ∧ alloy_daemon_create 3 "2026-01-01" "My Game" sampleRuntimeMeta
        = .ok (create_bottle_metadata 3 "2026-01-01" "my-game" sampleRuntimeMeta) :=
  ⟨(create_name_verbatim_alloy_slug [] 7 0 "My Game" sampleRuntime).1,
   (create_name_verbatim_alloy_slug [] 7 0 "My Game" sampleRuntime).2.2
     "My Game" "my-game" "2026-01-01" sampleRuntimeMeta 3 (by rfl)⟩

/-!
### C2 — WineCfg appends WINE_DEFAULT_VERSION without removing prior entries
-/

/-- C2 counterexample: a recipe with two `WineCfg` steps (versions "7.0",
"8.0"), run in a world where every launch succeeds, leaves TWO entries for
`WINE_DEFAULT_VERSION` in the in-memory environment — the WineCfg arm does
not remove prior entries for the key before appending, so the claimed
at-most-one-entry-per-key invariant fails after the second step. -/
theorem wineCfg_duplicate_key :
    (runSteps wAllOk sampleRecipe samplePfx
        [.wineCfg (some "7.0"), .wineCfg (some "8.0")]
        ⟨sampleRecord, 0, 0, []⟩).2.record.environment
      = [("WINE_DEFAULT_VERSION", "7.0"), ("WINE_DEFAULT_VERSION", "8.0")]
    ∧ List.countP (fun q => q.1 == "WINE_DEFAULT_VERSION")
        ((runSteps wAllOk sampleRecipe samplePfx
            [.wineCfg (some "7.0"), .wineCfg (some "8.0")]
            ⟨sampleRecord, 0, 0, []⟩).2.record.environment) = 2 := by
  constructor <;> rfl

/-- C2 amended: the Env arm's writes enforce at most one entry for the key
they write (remove-then-append), but the WineCfg arm's write of
WINE_DEFAULT_VERSION is a plain append that increments the number of
entries for that key by one; on a successful WineCfg step the resulting
in-memory environment is the old one with the pair appended at the end. -/
theorem env_write_policy :
    ∀ (env : List (String × String)) (k v : String) (w : World)
      (recipe : Recipe) (pfx : FilePath) (st : EngineSt)
      (par : FilePath) (c : Option Int),
      List.countP (fun q => q.1 == k) (envSet env k v) = 1
      ∧ List.countP (fun q => q.1 == "WINE_DEFAULT_VERSION")
          (wineCfgEnvWrite env (some v))
          = List.countP (fun q => q.1 == "WINE_DEFAULT_VERSION") env + 1
      ∧ (st.record.wine_runtime.wine64_path.parent = some par →
         w.launches st.launchN = .ok c →
         (runStep w recipe pfx st (.wineCfg (some v))).2.record.environment
           = st.record.environment ++ [("WINE_DEFAULT_VERSION", v)]
         ∧ (runStep w recipe pfx st (.wineCfg (some v))).1 = .ok ()) := by
  intro env k v w recipe pfx st par c
  refine ⟨envSet_countP env k v, ?_, ?_⟩
  · simp [wineCfgEnvWrite, List.countP_append, List.countP_cons]
  · intro hpar hl
    constructor
    · simp [runStep, wineCfgEnvWrite, hpar, hl]
    · simp [runStep, wineCfgEnvWrite, hpar, hl]

/-- Witness for the amended C2 at a concrete state: the WineCfg step
appends to the empty environment. -/
theorem env_write_policy_witness :
    (runStep wAllOk sampleRecipe samplePfx ⟨sampleRecord, 0, 0, []⟩
        (.wineCfg (some "9.0"))).2.record.environment
      = sampleRecord.environment ++ [("WINE_DEFAULT_VERSION", "9.0")] :=
  ((env_write_policy [] "K" "9.0" wAllOk sampleRecipe samplePfx
      ⟨sampleRecord, 0, 0, []⟩
      ⟨true, ["runtime", "wine-x86_64-7.0", "bin"]⟩ (some 0)).2.2
    (by rfl) (by rfl)).1

/-!
### C6 — non-zero exits are never errors
-/

/-- A world whose single launch exits with code 3. -/
def wExit3 : World :=
  { launches := fun _ => .ok (some 3)
    copyOps := fun _ => .ok ()
    fsExists := fun _ => true }

/-- C6: a non-zero guest exit is never surfaced as an error: a recipe Run
step with a launched (even failing) process succeeds and the loop moves to
the remaining steps, only a spawn failure aborts with that failure, and
`bottle.run` wraps any exit status as an ok payload carrying the code and
the success flag. -/
theorem nonzero_exit_never_error :
    ∀ (w : World) (recipe : Recipe) (pfx : FilePath) (st : EngineSt)
      (path : FilePath) (args : List String) (rest : List RecipeStep)
      (fs : FS) (id : Nat) (c : Option Int) (e : String),
      (w.launches st.launchN = .ok c →
        (runStep w recipe pfx st (.run path args)).1 = .ok ()
        ∧ ∃ st', runSteps w recipe pfx (.run path args :: rest) st
            = runSteps w recipe pfx rest st')
      ∧ (w.launches st.launchN = .error e →
        (runSteps w recipe pfx (.run path args :: rest) st).1 = .error e)
      ∧ (∀ r, BottleStore.record fs id = .ok r → w.launches 0 = .ok c →
          bottle_run w fs id = .ok ⟨c, c == some 0⟩) := by
  intro w recipe pfx st path args rest fs id c e
  refine ⟨?_, ?_, ?_⟩
  · intro h
    refine ⟨by simp [runStep, h], ?_⟩
    refine ⟨(runStep w recipe pfx st (.run path args)).2, ?_⟩
    simp [runSteps, runStep, h]
  · intro h
    simp [runSteps, runStep, h]
  · intro r h1 h2
    simp [bottle_run, h1, h2]

/-- Witness for C6: with a single launch exiting 3, `bottle.run` reports
`{exit_status := 3, success := false}` as an ok payload, and a Run step
with the same exit succeeds. -/
theorem nonzero_exit_never_error_witness :
    bottle_run wExit3 [(1, some sampleRecord)] 1 = .ok ⟨some 3, false⟩
    ∧ (runStep wExit3 sampleRecipe samplePfx ⟨sampleRecord, 0, 0, []⟩
        (.run ⟨false, ["setup.exe"]⟩ [])).1 = .ok () :=
  ⟨(nonzero_exit_never_error wExit3 sampleRecipe samplePfx
      ⟨sampleRecord, 0, 0, []⟩ ⟨false, ["setup.exe"]⟩ [] []
      [(1, some sampleRecord)] 1 (some 3) "").2.2 sampleRecord rfl rfl,
   ((nonzero_exit_never_error wExit3 sampleRecipe samplePfx
      ⟨sampleRecord, 0, 0, []⟩ ⟨false, ["setup.exe"]⟩ [] []
      [(1, some sampleRecord)] 1 (some 3) "").1 rfl).1⟩

/-!
### C9 — Env-step normalization: sorted, deduplicated, order-insensitive
-/

theorem mem_btreeInsert (k v : String) (l : List (String × String))
    (p : String × String) :
    p ∈ btreeInsert k v l → p = (k, v) ∨ p ∈ l := by
  induction l with
  | nil =>
    intro h
    simpa [btreeInsert] using h
  | cons hd tl ih =>
    rcases hd with ⟨k', v'⟩
    intro h
    rw [btreeInsert] at h
    split at h
    · rcases List.mem_cons.mp h with h | h
      · exact .inl h
      · exact .inr h
    · split at h
      · rcases List.mem_cons.mp h with h | h
        · exact .inl h
        · exact .inr (List.mem_cons_of_mem _ h)
      · rcases List.mem_cons.mp h with h | h
        · exact .inr (by simp [h])
        · rcases ih h with h' | h'
          · exact .inl h'
          · exact .inr (List.mem_cons_of_mem _ h')

theorem btreeInsert_sorted (k v : String) (l : List (String × String)) :
    l.Pairwise (fun p q => p.1 < q.1) →
    (btreeInsert k v l).Pairwise (fun p q => p.1 < q.1) := by
  induction l with
  | nil =>
    intro
    simp [btreeInsert]
  | cons hd tl ih =>
    rcases hd with ⟨k', v'⟩
    intro hs
    rcases List.pairwise_cons.mp hs with ⟨hhead, htail⟩
    rw [btreeInsert]
    split
    · rename_i hlt
      refine List.pairwise_cons.mpr ⟨?_, hs⟩
      intro q hq
      rcases List.mem_cons.mp hq with h | h
      · simpa [h] using hlt
      · exact lt_trans hlt (hhead q h)
    · split
      · rename_i hnlt heq
        subst heq
        exact List.pairwise_cons.mpr ⟨hhead, htail⟩
      · rename_i hnlt hne
        have hgt : k' < k := by
          rcases lt_trichotomy k k' with h | h | h
          · exact absurd h hnlt
          · exact absurd h hne
          · exact h
        refine List.pairwise_cons.mpr ⟨?_, ih htail⟩
        intro q hq
        rcases mem_btreeInsert k v tl q hq with h | h
        · simpa [h] using hgt
        · exact hhead q h

theorem lookup_btreeInsert (k v a : String) (l : List (String × String)) :
    (btreeInsert k v l).lookup a
      = if a == k then some v else l.lookup a := by
  induction l with
  | nil =>
    by_cases h : a = k
    · have hb : (a == k) = true := by simp [h]
      simp [btreeInsert, List.lookup, hb]
    · have hb : (a == k) = false := by simp [h]
      simp [btreeInsert, List.lookup, hb]
  | cons hd tl ih =>
    rcases hd with ⟨k', v'⟩
    rw [btreeInsert]
    split
    · by_cases h : a = k
      · have hb : (a == k) = true := by simp [h]
        simp [List.lookup, hb]
      · have hb : (a == k) = false := by simp [h]
        simp [List.lookup, hb]
    · split
      · rename_i hnlt heq
        by_cases h : a = k
        · have hb : (a == k) = true := by simp [h]
          simp [List.lookup, hb]
        · have hb : (a == k) = false := by simp [h]
          have hb' : (a == k') = false := by
            rw [← heq]
            exact hb
          simp [List.lookup, hb, hb']
      · rename_i hnlt hne
        by_cases h' : a = k'
        · have h : ¬ a = k := by
            intro hak
            exact hne (by rw [← hak, h'])
          have hb : (a == k) = false := by simp [h]
          have hb' : (a == k') = true := by simp [h']
          simp [List.lookup, hb, hb']
        · have hb' : (a == k') = false := by simp [h']
          simp [List.lookup, hb', ih]

theorem lookup_append (a : String) (l₁ l₂ : List (String × String)) :
    (l₁ ++ l₂).lookup a = ((l₁.lookup a).or (l₂.lookup a)) := by
  induction l₁ with
  | nil => simp [List.lookup]
  | cons hd tl ih =>
    rcases hd with ⟨k, v⟩
    by_cases h : a = k
    · have hb : (a == k) = true := by simp [h]
      simp [List.lookup, hb]
    · have hb : (a == k) = false := by simp [h]
      simp [List.lookup, hb, ih]

theorem lookup_foldl_btreeInsert (pairs : List (String × String))
    (m : List (String × String)) (a : String) :
    (pairs.foldl (fun m p => btreeInsert p.1 p.2 m) m).lookup a
      = ((pairs.reverse).lookup a).or (m.lookup a) := by
  induction pairs generalizing m with
  | nil => simp [List.lookup]
  | cons p rest ih =>
    rw [List.foldl_cons, ih, List.reverse_cons, lookup_append]
    rw [lookup_btreeInsert]
    by_cases ha : a = p.1
    · have hb : (a == p.1) = true := by simp [ha]
      rw [hb]
      simp only [List.lookup, hb]
      cases hrev : (rest.reverse).lookup a <;> simp [Option.or]
    · have hb : (a == p.1) = false := by simp [ha]
      rw [hb]
      simp only [List.lookup, hb]
      cases hrev : (rest.reverse).lookup a <;> simp [Option.or]

theorem foldl_btreeInsert_sorted (pairs : List (String × String))
    (m : List (String × String))
    (hm : m.Pairwise (fun p q => p.1 < q.1)) :
    (pairs.foldl (fun m p => btreeInsert p.1 p.2 m) m).Pairwise
      (fun p q => p.1 < q.1) := by
  induction pairs generalizing m with
  | nil => exact hm
  | cons p rest ih => exact ih _ (btreeInsert_sorted p.1 p.2 m hm)

theorem lookup_eq_none_iff (a : String) (l : List (String × String)) :
    l.lookup a = none ↔ a ∉ l.map Prod.fst := by
  induction l with
  | nil => simp [List.lookup]
  | cons hd tl ih =>
    rcases hd with ⟨k, v⟩
    by_cases h : a = k
    · have hb : (a == k) = true := by simp [h]
      simp [List.lookup, hb, h]
    · have hb : (a == k) = false := by simp [h]
      simp [List.lookup, hb, h, ih]

theorem lookup_eq_some_iff (a v : String) (l : List (String × String)) :
    (l.map Prod.fst).Nodup → (l.lookup a = some v ↔ (a, v) ∈ l) := by
  induction l with
  | nil =>
    intro
    simp [List.lookup]
  | cons hd tl ih =>
    intro nd
    rcases hd with ⟨k, v'⟩
    have nd2 : (k :: tl.map Prod.fst).Nodup := by simpa using nd
    rcases List.nodup_cons.mp nd2 with ⟨hk, nd'⟩
    by_cases h : a = k
    · subst h
      have hb : (a == a) = true := by simp
      simp only [List.lookup, hb]
      constructor
      · intro hv
        have hv' : v = v' := by
          have := Option.some.inj hv
          exact this.symm
        rw [hv']
        exact List.mem_cons_self _ _
      · intro hv
        rcases List.mem_cons.mp hv with h' | h'
        · have hv2 : v = v' := congrArg Prod.snd h'
          rw [hv2]
        · exact absurd (List.mem_map_of_mem Prod.fst h') hk
    · have hb : (a == k) = false := by simp [h]
      simp only [List.lookup, hb]
      rw [ih nd']
      constructor
      · exact fun h' => List.mem_cons_of_mem _ h'
      · intro h'
        rcases List.mem_cons.mp h' with h'' | h''
        · exact absurd (congrArg Prod.fst h'') h
        · exact h''

theorem lookup_perm_of_nodup_keys {l₁ l₂ : List (String × String)}
    (hperm : l₁.Perm l₂) (nd : (l₁.map Prod.fst).Nodup) (a : String) :
    l₁.lookup a = l₂.lookup a := by
  have nd₂ : (l₂.map Prod.fst).Nodup := (hperm.map Prod.fst).nodup_iff.mp nd
  cases h : l₁.lookup a with
  | none =>
    rw [lookup_eq_none_iff] at h
    have : a ∉ l₂.map Prod.fst := fun hm =>
      h ((hperm.map Prod.fst).mem_iff.mpr hm)
    exact ((lookup_eq_none_iff a l₂).mpr this).symm
  | some v =>
    rw [lookup_eq_some_iff a v l₁ nd] at h
    exact ((lookup_eq_some_iff a v l₂ nd₂).mpr (hperm.mem_iff.mp h)).symm

theorem sorted_ext {l₁ l₂ : List (String × String)}
    (h₁ : l₁.Pairwise (fun p q => p.1 < q.1))
    (h₂ : l₂.Pairwise (fun p q => p.1 < q.1))
    (h : ∀ a, l₁.lookup a = l₂.lookup a) : l₁ = l₂ := by
  induction l₁ generalizing l₂ with
  | nil =>
    cases l₂ with
    | nil => rfl
    | cons b t₂ =>
      have := h b.1
      simp [List.lookup] at this
  | cons a t₁ ih =>
    cases l₂ with
    | nil =>
      have := h a.1
      simp [List.lookup] at this
    | cons b t₂ =>
      rcases List.pairwise_cons.mp h₁ with ⟨ha1, ht₁⟩
      rcases List.pairwise_cons.mp h₂ with ⟨hb1, ht₂⟩
      have hkeys : a.1 = b.1 := by
        rcases lt_trichotomy a.1 b.1 with hlt | heq | hgt
        · exfalso
          have hl := h a.1
          have hnone : (b :: t₂).lookup a.1 = none := by
            rw [lookup_eq_none_iff]
            intro hm
            rcases List.mem_map.mp hm with ⟨q, hq, hq1⟩
            rcases List.mem_cons.mp hq with h' | h'
            · subst h'
              exact absurd hq1.symm (ne_of_lt hlt)
            · exact absurd (hq1 ▸ hb1 q h') (not_lt.mpr (le_of_lt hlt))
          rw [hnone] at hl
          simp [List.lookup] at hl
        · exact heq
        · exfalso
          have hl := (h b.1).symm
          have hnone : (a :: t₁).lookup b.1 = none := by
            rw [lookup_eq_none_iff]
            intro hm
            rcases List.mem_map.mp hm with ⟨q, hq, hq1⟩
            rcases List.mem_cons.mp hq with h' | h'
            · subst h'
              exact absurd hq1.symm (ne_of_lt hgt)
            · exact absurd (hq1 ▸ ha1 q h') (not_lt.mpr (le_of_lt hgt))
          rw [hnone] at hl
          simp [List.lookup] at hl
      have hvals : a.2 = b.2 := by
        have hl := h a.1
        rw [List.lookup, List.lookup] at hl
        simp [hkeys] at hl
        exact hl
      have htail : ∀ x, t₁.lookup x = t₂.lookup x := by
        intro x
        by_cases hx : x = a.1
        · subst hx
          have hn₁ : t₁.lookup a.1 = none := by
            rw [lookup_eq_none_iff]
            intro hm
            rcases List.mem_map.mp hm with ⟨q, hq, hq1⟩
            exact absurd (hq1 ▸ ha1 q hq) (lt_irrefl a.1)
          have hn₂ : t₂.lookup a.1 = none := by
            rw [lookup_eq_none_iff]
            intro hm
            rcases List.mem_map.mp hm with ⟨q, hq, hq1⟩
            rw [hkeys] at hq1
            exact absurd (hq1 ▸ hb1 q hq) (lt_irrefl b.1)
          rw [hn₁, hn₂]
        · have hl := h x
          have hbx : (x == a.1) = false := by simpa using hx
          have hbx' : (x == b.1) = false := by
            rw [← hkeys]
            exact hbx
          rw [List.lookup, List.lookup] at hl
          rw [hbx, hbx'] at hl
          exact hl
      have hab : a = b := by
        rcases a with ⟨a1, a2⟩
        rcases b with ⟨b1, b2⟩
        simp at hkeys hvals
        simp [hkeys, hvals]
      rw [hab, ih ht₁ ht₂ htail]

/-- C9: normalizing an on-disk Env step yields a variables list strictly
sorted by key with at most one entry per key (duplicate YAML keys collapse
to the later binding), the result is the same for any reordering of
distinct-keyed pairs, and document order is not preserved. -/
theorem normalize_env_step_canonical :
    ∀ pairs : List (String × String),
      (normalizeEnvStep pairs).Pairwise (fun p q => p.1 < q.1)
      ∧ ((normalizeEnvStep pairs).map Prod.fst).Nodup
      ∧ (∀ a, (normalizeEnvStep pairs).lookup a = (pairs.reverse).lookup a)
      ∧ (∀ pairs₂, pairs.Perm pairs₂ → (pairs.map Prod.fst).Nodup →
          normalizeEnvStep pairs = normalizeEnvStep pairs₂)
      ∧ normalizeEnvStep [("B", "1"), ("A", "2")] = [("A", "2"), ("B", "1")] := by
  intro pairs
  have hsorted : ∀ ps : List (String × String),
      (normalizeEnvStep ps).Pairwise (fun p q => p.1 < q.1) :=
    fun ps => foldl_btreeInsert_sorted ps [] (by simp)
  have hlookup : ∀ (ps : List (String × String)) (a : String),
      (normalizeEnvStep ps).lookup a = (ps.reverse).lookup a := by
    intro ps a
    rw [normalizeEnvStep, lookup_foldl_btreeInsert]
    cases h : (ps.reverse).lookup a <;> simp [List.lookup, Option.or]
  refine ⟨hsorted pairs, ?_, hlookup pairs, ?_, ?_⟩
  · have := hsorted pairs
    have hp : ((normalizeEnvStep pairs).map Prod.fst).Pairwise (· < ·) :=
      List.pairwise_map.mpr this
    exact hp.imp ne_of_lt
  · intro pairs₂ hperm nd
    refine sorted_ext (hsorted pairs) (hsorted pairs₂) ?_
    intro a
    rw [hlookup pairs a, hlookup pairs₂ a]
    refine lookup_perm_of_nodup_keys
      ((List.reverse_perm pairs).trans
        (hperm.trans (List.reverse_perm pairs₂).symm)) ?_ a
    rw [List.map_reverse, List.nodup_reverse]
    exact nd
  · have hAB : ("A" : String) < "B" := by
      rw [String.lt_iff_toList_lt]
      decide
    simp [normalizeEnvStep, btreeInsert, hAB]

/-!
### C4 — runtime discovery: skipping scan, channel mapping, label order
-/

theorem discoverEntry_eq_some (root : FilePath) (hw : String → Bool)
    (e : DirEntry) (d : RuntimeDescriptor) :
    discoverEntry root hw e = some d ↔
      (e.isDir = true ∧ hw e.name = true ∧
        ∃ arch v₀ vrest,
          splitOnChar '-' e.name = "wine" :: arch :: v₀ :: vrest ∧
          d = { channel := archChannel arch
                label := "wine " ++ arch ++ " " ++ String.intercalate "-" (v₀ :: vrest)
                version := String.intercalate "-" (v₀ :: vrest)
                wine64_path := ⟨root.absolute, root.comps ++ [e.name, "bin", "wine64"]⟩
                notes := none }) := by
  rcases e with ⟨name, isDir⟩
  rw [discoverEntry]
  cases isDir with
  | false => simp
  | true =>
    simp only [Bool.true_eq_false, if_false]
    cases hsplit : splitOnChar '-' name with
    | nil => simp [hsplit]
    | cons tag rest =>
      cases rest with
      | nil => simp [hsplit]
      | cons arch rest2 =>
        cases rest2 with
        | nil => simp [hsplit]
        | cons v₀ vrest =>
          by_cases htag : tag = "wine"
          · subst htag
            by_cases hhw : hw name = true
            · simp [hhw, FilePath.child]
              constructor
              · intro hd
                exact ⟨arch, v₀, vrest, ⟨rfl, rfl, rfl⟩, hd.symm⟩
              · rintro ⟨a1, b1, c1, ⟨h1, h2, h3⟩, hd⟩
                subst h1
                subst h2
                subst h3
                exact hd.symm
            · have hhw' : hw name = false := by
                simpa using hhw
              simp [hhw']
          · simp [htag, hsplit, Ne.symm htag]

/-- C4: `discover` of a missing root is the empty list (not an error);
otherwise a descriptor is produced exactly for the immediate
subdirectories whose name has at least three dash-separated segments
starting with the literal "wine" and which contain `bin/wine64`, with the
channel derived from the architecture segment (x86_64 as "rossetta", arm64
as "native-arm64", anything else as "custom-" plus the arch), the version
being the remaining segments rejoined with dashes; everything else is
silently skipped, and the result is ordered by label. -/
theorem discover_runtimes_contract :
    ∀ (root : FilePath) (entries : List DirEntry) (hw : String → Bool),
      discover_runtimes root false entries hw = []
      ∧ (∀ d, d ∈ discover_runtimes root true entries hw ↔
          ∃ e, e ∈ entries ∧ e.isDir = true ∧ hw e.name = true ∧
            ∃ arch v₀ vrest,
              splitOnChar '-' e.name = "wine" :: arch :: v₀ :: vrest ∧
              d = { channel :=
                      if arch = "x86_64" then "rossetta"
                      else if arch = "arm64" then "native-arm64"
                      else "custom-" ++ arch
                    label := "wine " ++ arch ++ " "
                      ++ String.intercalate "-" (v₀ :: vrest)
                    version := String.intercalate "-" (v₀ :: vrest)
                    wine64_path := ⟨root.absolute,
                      root.comps ++ [e.name, "bin", "wine64"]⟩
                    notes := none })
      ∧ (discover_runtimes root true entries hw).Pairwise
          (fun a b => a.label ≤ b.label) := by
  intro root entries hw
  refine ⟨rfl, ?_, ?_⟩
  · intro d
    rw [discover_runtimes]
    simp only [Bool.true_eq_false, if_false]
    rw [List.mem_mergeSort, List.mem_filterMap]
    constructor
    · rintro ⟨e, he, hsome⟩
      rcases (discoverEntry_eq_some root hw e d).mp hsome with ⟨h1, h2, h3⟩
      exact ⟨e, he, h1, h2, h3⟩
    · rintro ⟨e, he, h1, h2, h3⟩
      exact ⟨e, he, (discoverEntry_eq_some root hw e d).mpr ⟨h1, h2, h3⟩⟩
  · rw [discover_runtimes]
    simp only [Bool.true_eq_false, if_false]
    have htrans : ∀ (a b c : RuntimeDescriptor),
        labelLe a b = true → labelLe b c = true → labelLe a c = true := by
      intro a b c hab hbc
      exact decide_eq_true
        (le_trans (of_decide_eq_true hab) (of_decide_eq_true hbc))
    have htotal : ∀ (a b : RuntimeDescriptor),
        (labelLe a b || labelLe b a) = true := by
      intro a b
      rcases le_total a.label b.label with h | h
      · simp [labelLe, h]
      · simp [labelLe, h]
    have hpair := List.sorted_mergeSort htrans htotal
      (entries.filterMap (discoverEntry root hw))
    exact hpair.imp fun h => of_decide_eq_true h

/-!
### C1 — persistence contract of `apply_recipe`
-/

theorem runStep_events (w : World) (recipe : Recipe) (pfx : FilePath)
    (st : EngineSt) (step : RecipeStep) :
    ∃ new, (runStep w recipe pfx st step).2.events = st.events ++ new
      ∧ ∀ ev ∈ new, ev.isUpdate = false := by
  cases step with
  | run path args =>
    cases h : w.launches st.launchN with
    | error e => exact ⟨[], by simp [runStep, h], by simp⟩
    | ok c =>
      exact ⟨[.launched (recipe.resource path) args st.record.environment],
        by simp [runStep, h], by simp [Event.isUpdate]⟩
  | waitForExit => exact ⟨[], by simp [runStep], by simp⟩
  | wineCfg version =>
    cases hp : st.record.wine_runtime.wine64_path.parent with
    | none => exact ⟨[], by simp [runStep, hp], by simp⟩
    | some par =>
      cases h : w.launches st.launchN with
      | error e => exact ⟨[], by simp [runStep, hp, h], by simp⟩
      | ok c =>
        exact ⟨[.launched (par.child "winecfg") []
            (wineCfgEnvWrite st.record.environment version)],
          by simp [runStep, hp, h], by simp [Event.isUpdate]⟩
  | env vars => exact ⟨[], by simp [runStep], by simp⟩
  | copy src dst =>
    by_cases he : w.fsExists (recipe.resource src) = false
    · exact ⟨[], by simp [runStep, he], by simp⟩
    · cases h : w.copyOps st.copyN with
      | error e => exact ⟨[], by simp [runStep, he, h], by simp⟩
      | ok u =>
        exact ⟨[.copied (recipe.resource src) (pfx.join dst)],
          by simp [runStep, he, h], by simp [Event.isUpdate]⟩

theorem runStep_core (w : World) (recipe : Recipe) (pfx : FilePath)
    (st : EngineSt) (step : RecipeStep) :
    (runStep w recipe pfx st step).2.record.id = st.record.id
    ∧ (runStep w recipe pfx st step).2.record.name = st.record.name
    ∧ (runStep w recipe pfx st step).2.record.created_at = st.record.created_at
    ∧ (runStep w recipe pfx st step).2.record.wine_runtime
        = st.record.wine_runtime := by
  cases step with
  | run path args =>
    cases h : w.launches st.launchN <;> simp [runStep, h]
  | waitForExit => simp [runStep]
  | wineCfg version =>
    cases hp : st.record.wine_runtime.wine64_path.parent with
    | none => simp [runStep, hp]
    | some par =>
      cases h : w.launches st.launchN <;> simp [runStep, hp, h]
  | env vars => simp [runStep]
  | copy src dst =>
    by_cases he : w.fsExists (recipe.resource src) = false
    · simp [runStep, he]
    · cases h : w.copyOps st.copyN <;> simp [runStep, he, h]

theorem runSteps_events (w : World) (recipe : Recipe) (pfx : FilePath) :
    ∀ (steps : List RecipeStep) (st : EngineSt),
      ∃ new, (runSteps w recipe pfx steps st).2.events = st.events ++ new
        ∧ ∀ ev ∈ new, ev.isUpdate = false := by
  intro steps
  induction steps with
  | nil =>
    intro st
    exact ⟨[], by simp [runSteps], by simp⟩
  | cons step rest ih =>
    intro st
    obtain ⟨n₁, h₁, h₁'⟩ := runStep_events w recipe pfx st step
    rcases hr : runStep w recipe pfx st step with ⟨res, st'⟩
    rw [hr] at h₁
    cases res with
    | error e =>
      refine ⟨n₁, ?_, h₁'⟩
      simpa [runSteps, hr] using h₁
    | ok u =>
      obtain ⟨n₂, h₂, h₂'⟩ := ih st'
      refine ⟨n₁ ++ n₂, ?_, ?_⟩
      · have hout : runSteps w recipe pfx (step :: rest) st
            = runSteps w recipe pfx rest st' := by
          simp [runSteps, hr]
        rw [hout, h₂, h₁, List.append_assoc]
      · intro ev hev
        rcases List.mem_append.mp hev with h | h
        · exact h₁' ev h
        · exact h₂' ev h

theorem runSteps_core (w : World) (recipe : Recipe) (pfx : FilePath) :
    ∀ (steps : List RecipeStep) (st : EngineSt),
      (runSteps w recipe pfx steps st).2.record.id = st.record.id
      ∧ (runSteps w recipe pfx steps st).2.record.name = st.record.name
      ∧ (runSteps w recipe pfx steps st).2.record.created_at
          = st.record.created_at
      ∧ (runSteps w recipe pfx steps st).2.record.wine_runtime
          = st.record.wine_runtime := by
  intro steps
  induction steps with
  | nil =>
    intro st
    simp [runSteps]
  | cons step rest ih =>
    intro st
    obtain ⟨c1, c2, c3, c4⟩ := runStep_core w recipe pfx st step
    rcases hr : runStep w recipe pfx st step with ⟨res, st'⟩
    rw [hr] at c1 c2 c3 c4
    cases res with
    | error e =>
      have hout : runSteps w recipe pfx (step :: rest) st = (.error e, st') := by
        simp [runSteps, hr]
      rw [hout]
      exact ⟨c1, c2, c3, c4⟩
    | ok u =>
      have hout : runSteps w recipe pfx (step :: rest) st
          = runSteps w recipe pfx rest st' := by
        simp [runSteps, hr]
      rw [hout]
      obtain ⟨d1, d2, d3, d4⟩ := ih st'
      exact ⟨d1.trans c1, d2.trans c2, d3.trans c3, d4.trans c4⟩

theorem record_ok_dir {fs : FS} {id : Nat} {rec0 : BottleRecord}
    (h : BottleStore.record fs id = .ok rec0) :
    fs.dir id = some (some rec0) := by
  rw [BottleStore.record] at h
  cases hd : fs.dir id with
  | none =>
    rw [hd] at h
    cases h
  | some m =>
    cases m with
    | none =>
      rw [hd] at h
      cases h
    | some r =>
      rw [hd] at h
      cases h
      rfl

/-- C1: if every recipe step succeeds, the accumulated record (same id,
name, creation time, and runtime as the loaded one; only the environment
accumulated) is written back through the store's update exactly once, as
the last emitted effect; if any step fails, `apply_recipe` returns that
failure, the persisted store is exactly as before, and no update was ever
issued — while the external effects already emitted (launches, copies)
remain in the trace. -/
theorem apply_recipe_persistence :
    ∀ (w : World) (root : FilePath) (fs : FS) (id : Nat) (recipe : Recipe),
      (∀ e, (apply_recipe w root fs id recipe).result = .error e →
        (apply_recipe w root fs id recipe).fs = fs
        ∧ ∀ ev ∈ (apply_recipe w root fs id recipe).events,
            ev.isUpdate = false)
      ∧ (∀ v, (apply_recipe w root fs id recipe).result = .ok v →
        ∃ r rec0, BottleStore.record fs id = .ok rec0
          ∧ (apply_recipe w root fs id recipe).events.filter Event.isUpdate
              = [.updated id r]
          ∧ (apply_recipe w root fs id recipe).events.getLast?
              = some (.updated id r)
          ∧ (apply_recipe w root fs id recipe).fs = FS.setMeta fs id r
          ∧ r.id = rec0.id ∧ r.name = rec0.name
          ∧ r.created_at = rec0.created_at
          ∧ r.wine_runtime = rec0.wine_runtime) := by
  intro w root fs id recipe
  cases hrec : BottleStore.record fs id with
  | error e0 =>
    constructor
    · intro e he
      constructor
      · simp [apply_recipe, hrec]
      · intro ev hev
        simp [apply_recipe, hrec] at hev
    · intro v hv
      simp [apply_recipe, hrec] at hv
  | ok rec0 =>
    obtain ⟨new, hev, hev'⟩ := runSteps_events w recipe
      (BottleStore.bottle_prefix_path root id) recipe.manifest.steps
      ⟨rec0, 0, 0, []⟩
    obtain ⟨c1, c2, c3, c4⟩ := runSteps_core w recipe
      (BottleStore.bottle_prefix_path root id) recipe.manifest.steps
      ⟨rec0, 0, 0, []⟩
    rcases hrun : runSteps w recipe (BottleStore.bottle_prefix_path root id)
        recipe.manifest.steps ⟨rec0, 0, 0, []⟩ with ⟨res, st⟩
    rw [hrun] at hev c1 c2 c3 c4
    simp only [List.nil_append] at hev
    cases res with
    | error e =>
      constructor
      · intro e' he'
        constructor
        · simp [apply_recipe, hrec, hrun]
        · intro ev hevm
          simp only [apply_recipe, hrec, hrun] at hevm
          exact hev' ev (hev ▸ hevm)
      · intro v hv
        simp [apply_recipe, hrec, hrun] at hv
    | ok u =>
      have hdir : fs.dir id = some (some rec0) := record_ok_dir hrec
      have hupd : BottleStore.update_record fs id st.record
          = .ok (FS.setMeta fs id st.record) := by
        simp [BottleStore.update_record, hdir]
      constructor
      · intro e' he'
        simp [apply_recipe, hrec, hrun, hupd] at he'
      · intro v hv
        refine ⟨st.record, rec0, rfl, ?_, ?_, ?_, c1, c2, c3, c4⟩
        · have : (apply_recipe w root fs id recipe).events
              = st.events ++ [.updated id st.record] := by
            simp [apply_recipe, hrec, hrun, hupd]
          rw [this, List.filter_append]
          have hnil : st.events.filter Event.isUpdate = [] := by
            rw [List.filter_eq_nil_iff]
            intro a ha
            rw [hev] at ha
            simp [hev' a ha]
          rw [hnil]
          simp [Event.isUpdate]
        · have : (apply_recipe w root fs id recipe).events
              = st.events ++ [.updated id st.record] := by
            simp [apply_recipe, hrec, hrun, hupd]
          rw [this, List.getLast?_concat]
        · simp [apply_recipe, hrec, hrun, hupd]

/-- A recipe mirroring the spec's §8 scenario: a Copy, an Env override,
then a Run. -/
def threeStepRecipe : Recipe :=
  { manifest :=
      { id := "three"
        name := "Three Steps"
        description := none
        steps := [.copy ⟨false, ["installer.exe"]⟩ ⟨false, ["drive_c", "installer.exe"]⟩,
                  .env [("OVERRIDE", "on")],
                  .run ⟨false, ["installer.exe"]⟩ []] }
    base_dir := ⟨true, ["recipes", "three"]⟩ }

/-- A world whose copies succeed but whose every launch fails to spawn. -/
def wSpawnFail : World :=
  { launches := fun _ => .error "spawn failed"
    copyOps := fun _ => .ok ()
    fsExists := fun _ => true }

/-- Witness for C1, both branches: a fully successful run updates the store
once with the accumulated environment as the last event, and the same
recipe failing at its third step (spawn failure) leaves the persisted
store untouched with no update event — even though the copy of step one is
in the trace. -/
theorem apply_recipe_persistence_witness :
    (∃ r rec0, BottleStore.record [(1, some sampleRecord)] 1 = .ok rec0
      ∧ (apply_recipe wAllOk ⟨true, ["bottles"]⟩ [(1, some sampleRecord)] 1
          threeStepRecipe).events.filter Event.isUpdate = [.updated 1 r]
      ∧ (apply_recipe wAllOk ⟨true, ["bottles"]⟩ [(1, some sampleRecord)] 1
          threeStepRecipe).events.getLast? = some (.updated 1 r)
      ∧ (apply_recipe wAllOk ⟨true, ["bottles"]⟩ [(1, some sampleRecord)] 1
          threeStepRecipe).fs = FS.setMeta [(1, some sampleRecord)] 1 r
      ∧ r.id = rec0.id ∧ r.name = rec0.name ∧ r.created_at = rec0.created_at
      ∧ r.wine_runtime = rec0.wine_runtime)
    ∧ (apply_recipe wSpawnFail ⟨true, ["bottles"]⟩ [(1, some sampleRecord)] 1
        threeStepRecipe).fs = [(1, some sampleRecord)]
    ∧ (∀ ev ∈ (apply_recipe wSpawnFail ⟨true, ["bottles"]⟩
        [(1, some sampleRecord)] 1 threeStepRecipe).events,
        ev.isUpdate = false)
    ∧ (apply_recipe wSpawnFail ⟨true, ["bottles"]⟩ [(1, some sampleRecord)] 1
        threeStepRecipe).events.head?
        = some (.copied ⟨true, ["recipes", "three", "resources", "installer.exe"]⟩
            ⟨true, ["bottles", "1", "prefix", "drive_c", "installer.exe"]⟩) :=
  ⟨(apply_recipe_persistence wAllOk ⟨true, ["bottles"]⟩ [(1, some sampleRecord)]
      1 threeStepRecipe).2 "three" rfl,
   ((apply_recipe_persistence wSpawnFail ⟨true, ["bottles"]⟩
      [(1, some sampleRecord)] 1 threeStepRecipe).1 "spawn failed" rfl).1,
   ((apply_recipe_persistence wSpawnFail ⟨true, ["bottles"]⟩
      [(1, some sampleRecord)] 1 threeStepRecipe).1 "spawn failed" rfl).2,
   rfl⟩

end SiliconAlloy
